import Mathlib

/-!
Shallow embedding of `src/pre_commit_hashing.py`, the commit-reveal
randomness primitives: XOR aggregation, the variable-length big-endian
nonce encoding, hash commitment generation/verification, and the
NaCl-Box-based secure channel (modelled as an ideal authenticated cipher).

Bytes are modelled as `List Nat` (each entry a byte value).  The SHA-256
digest from `hashlib` and the entropy source `dev_urandom_entropy` are
external library calls; they are taken as explicit function parameters
`H` and `u`, so every theorem below holds for the actual digest/entropy
in particular.
-/

namespace PreCommitHashing

/-- `xor_all` (source lines 30-35): starts from `x[0]` and folds
`bytes([a ^ b for a, b in zip(result, x[i])])` over the rest.
`x[0]` on an empty list raises (modelled as `none`); `zip` silently
truncates to the shorter operand. -/
def xor_all (x : List (List Nat)) : Option (List Nat) :=
  match x with
  | [] => none
  | h :: t => some (t.foldl (fun result xi => List.zipWith Nat.xor result xi) h)

/-- `int_to_bytes` (source lines 38-40): `x.to_bytes((x.bit_length()+7)//8, 'big')`,
the minimal big-endian base-256 representation (empty for 0), i.e. the
reversed little-endian digit list. -/
def int_to_bytes (x : Nat) : List Nat :=
  (Nat.digits 256 x).reverse

/-- `bytes_to_int` (source lines 43-45, also used inline in `decrypt`):
`int.from_bytes(x, 'big')`. -/
def bytes_to_int (x : List Nat) : Nat :=
  x.foldl (fun acc b => 256 * acc + b) 0

/-- `generate` (source lines 53-57): draws `n` bytes from
`dev_urandom_entropy` (modelled by `u`) unless `forged_bytes` is given,
and hashes `random_bytes + int_to_bytes(nonce)` with SHA-256 (modelled
by `H`).  There is no validation of `n`. -/
def generate (H : List Nat → List Nat) (u : Nat → List Nat)
    (n : Nat) (nonce : Nat) (forged_bytes : Option (List Nat)) :
    List Nat × List Nat :=
  let random_bytes := match forged_bytes with
    | none => u n
    | some f => f
  (random_bytes, H (random_bytes ++ int_to_bytes nonce))

/-- `verify` (source lines 60-62): recomputes the digest of
`random_bytes + int_to_bytes(nonce)` and compares with `random_hash`. -/
def verify (H : List Nat → List Nat) (random_bytes : List Nat)
    (nonce : Nat) (random_hash : List Nat) : Bool :=
  random_hash == H (random_bytes ++ int_to_bytes nonce)

/-- Model of `nacl.public.PrivateKey`: an abstract scalar. -/
structure PrivateKey where
  seed : Nat
  deriving DecidableEq

/-- Model of `nacl.public.PublicKey`. -/
structure PublicKey where
  point : Nat
  deriving DecidableEq

/-- Public-key derivation (`PrivateKey.public_key` in nacl); any
injective map works for the ideal-cipher model. -/
def PrivateKey.public_key (k : PrivateKey) : PublicKey :=
  ⟨k.seed⟩

/-- Ideal model of `nacl.utils.EncryptedMessage` as produced by
`Box.encrypt`: the ciphertext determines the key pair it was built from
(authentication) and, to its legitimate holder, the plaintext. -/
structure EncryptedMessage where
  sender : PublicKey
  recipient : PublicKey
  payload : List Nat
  deriving DecidableEq

/-- Model of `nacl.public.Box(private_key, public_key)`. -/
structure Box where
  private_key : PrivateKey
  public_key : PublicKey

/-- Ideal model of `Box.encrypt`: seals the plaintext under the
sender/recipient key pair. -/
def Box.encrypt (b : Box) (m : List Nat) : EncryptedMessage :=
  ⟨b.private_key.public_key, b.public_key, m⟩

/-- Ideal model of `Box.decrypt`: succeeds exactly when the box keys are
the complementary pair of the one that sealed the message (otherwise
nacl raises `CryptoError`, modelled as `none`). -/
def Box.decrypt (b : Box) (c : EncryptedMessage) : Option (List Nat) :=
  if c.recipient = b.private_key.public_key ∧ c.sender = b.public_key then
    some c.payload
  else
    none

/-- Python `bytes(n)` for an integer `n`: a string of `n` zero bytes.
This is what source line 76 (`random_bytes + bytes(nonce)`) appends. -/
def py_bytes (n : Nat) : List Nat :=
  List.replicate n 0

/-- `encrypt` (source lines 65-76): `Box(private_key, public_key)` then
`box.encrypt(random_bytes + bytes(nonce))`.  NOTE: the source uses the
Python builtin `bytes(nonce)` (zero-filled), not `int_to_bytes(nonce)`. -/
def encrypt (random_bytes : List Nat) (nonce : Nat)
    (private_key : PrivateKey) (public_key : PublicKey) : EncryptedMessage :=
  (Box.mk private_key public_key).encrypt (random_bytes ++ py_bytes nonce)

/-- `decrypt` (source lines 79-93): `box.decrypt`, then split the
plaintext at position `n` and decode the tail big-endian.  No length
consistency check is performed. -/
def decrypt (n : Nat) (encrypted : EncryptedMessage)
    (private_key : PrivateKey) (public_key : PublicKey) :
    Option (List Nat × Nat) :=
  match (Box.mk private_key public_key).decrypt encrypted with
  | none => none
  | some decrypted => some (decrypted.take n, bytes_to_int (decrypted.drop n))

/-! ### Helper lemmas -/

/-- Length of the `xor_all` fold: the running minimum of the operand
lengths. -/
theorem foldl_zipWith_length (t : List (List Nat)) :
    ∀ h : List Nat,
      (t.foldl (fun result xi => List.zipWith Nat.xor result xi) h).length =
        t.foldl (fun acc xi => min acc xi.length) h.length := by
  induction t with
  | nil => intro h; rfl
  | cons x t ih =>
    intro h
    simp only [List.foldl_cons]
    rw [ih, List.length_zipWith]

/-- When every operand has length `L`, the fold over lists computes, at
each in-bounds index, the fold of the bytes at that index. -/
theorem foldl_zipWith_getD (t : List (List Nat)) :
    ∀ (h : List Nat) (L : Nat), h.length = L → (∀ l ∈ t, l.length = L) →
      ∀ i, i < L →
        (t.foldl (fun result xi => List.zipWith Nat.xor result xi) h).getD i 0 =
          t.foldl (fun acc xi => Nat.xor acc (xi.getD i 0)) (h.getD i 0) := by
  induction t with
  | nil => intros; rfl
  | cons x t ih =>
    intro h L hL hmem i hi
    have hx : x.length = L := hmem x (by simp)
    have hz : (List.zipWith Nat.xor h x).length = L := by
      rw [List.length_zipWith, hL, hx, Nat.min_self]
    simp only [List.foldl_cons]
    rw [ih (List.zipWith Nat.xor h x) L hz
      (fun l hl => hmem l (List.mem_cons_of_mem x hl)) i hi]
    have hih : i < h.length := by omega
    have hix : i < x.length := by omega
    have hiz : i < (List.zipWith Nat.xor h x).length := by omega
    rw [List.getD_eq_getElem _ _ hiz, List.getD_eq_getElem _ _ hih,
      List.getD_eq_getElem _ _ hix, List.getElem_zipWith]

/-- Folding `min` over lengths that are all `L`, starting from `L`,
stays `L`. -/
theorem foldl_min_const (L : Nat) (t : List (List Nat))
    (hmem : ∀ l ∈ t, l.length = L) :
    t.foldl (fun acc xi => min acc xi.length) L = L := by
  induction t with
  | nil => rfl
  | cons x t ih =>
    simp only [List.foldl_cons]
    rw [hmem x (by simp), Nat.min_self]
    exact ih (fun l hl => hmem l (List.mem_cons_of_mem x hl))

/-! ### Claim theorems -/

/-- C3: Hash round-trip — for every byte sequence `s` and nonce `n`,
`verify(s, n, h)` returns true when `h` is the hash produced by
`generate` for that same secret and nonce, both when the secret is
forced to `s` and when it is the drawn entropy. -/
theorem verify_generate_roundtrip (H : List Nat → List Nat)
    (u : Nat → List Nat) (n nonce : Nat) (s : List Nat) :
    verify H s nonce (generate H u n nonce (some s)).2 = true ∧
      verify H (generate H u n nonce none).1 nonce
        (generate H u n nonce none).2 = true := by
  constructor <;> simp [verify, generate]

/-- C5: `xor_all` on the empty sequence fails (the subscript `x[0]`
raises, the spec's `EmptyInput`) and never returns a value. -/
theorem xor_all_nil : xor_all [] = none := rfl

/-- C4 counterexample: on inputs of differing lengths (`[0x01,0x02]`
and `[0x03]`) `xor_all` does NOT fail — `zip` truncates and it returns
the value `[0x02]`. -/
theorem xor_all_mismatch_counterexample :
    xor_all [[1, 2], [3]] = some [2] := by decide

/-- C4 amended: `xor_all` never fails on a non-empty input, whatever the
lengths; it returns a value whose length is the running minimum of the
operand lengths (`zip` truncation), rather than failing with
`LengthMismatch`. -/
theorem xor_all_mismatch_truncates (h : List Nat) (t : List (List Nat)) :
    ∃ r, xor_all (h :: t) = some r ∧
      r.length = t.foldl (fun acc xi => min acc xi.length) h.length :=
  ⟨_, rfl, foldl_zipWith_length t h⟩

/-- C7: on a non-empty list of byte strings all of length `L`,
`xor_all` returns a string of length exactly `L` whose `i`-th byte is
the XOR of the `i`-th bytes of all inputs. -/
theorem xor_all_same_length (x : List (List Nat)) (L : Nat)
    (hne : x ≠ []) (hlen : ∀ l ∈ x, l.length = L) :
    ∃ r, xor_all x = some r ∧ r.length = L ∧
      ∀ i, i < L →
        r.getD i 0 = (x.map (fun l => l.getD i 0)).foldl Nat.xor 0 := by
  match x, hne with
  | h :: t, _ =>
    have hh : h.length = L := hlen h (by simp)
    have ht : ∀ l ∈ t, l.length = L :=
      fun l hl => hlen l (List.mem_cons_of_mem h hl)
    refine ⟨_, rfl, ?_, ?_⟩
    · rw [foldl_zipWith_length, hh, foldl_min_const L t ht]
    · intro i hi
      rw [foldl_zipWith_getD t h L hh ht i hi, List.map_cons,
        List.foldl_cons, List.foldl_map]
      have hz0 : Nat.xor 0 (h.getD i 0) = h.getD i 0 := Nat.zero_xor _
      rw [hz0]

/-- C7 witness: instantiation at `[[1,2],[3,4]]` with `L = 2`. -/
theorem xor_all_same_length_witness :
    (([[1, 2], [3, 4]] : List (List Nat)) ≠ [] ∧
        ∀ l ∈ ([[1, 2], [3, 4]] : List (List Nat)), l.length = 2) ∧
      ∃ r, xor_all [[1, 2], [3, 4]] = some r ∧ r.length = 2 ∧
        ∀ i, i < 2 →
          r.getD i 0 =
            (([[1, 2], [3, 4]] : List (List Nat)).map
              (fun l => l.getD i 0)).foldl Nat.xor 0 :=
  ⟨⟨by decide, by decide⟩,
    xor_all_same_length [[1, 2], [3, 4]] 2 (by decide) (by decide)⟩

/-- C9: `xor_all` is commutative on two-element inputs of equal
length. -/
theorem xor_all_comm_pair (a b : List Nat) (hlen : a.length = b.length) :
    xor_all [a, b] = xor_all [b, a] := by
  simp only [xor_all, List.foldl_cons, List.foldl_nil]
  exact congrArg some (List.zipWith_comm_of_comm Nat.xor Nat.xor_comm a b)

/-- C9 witness: instantiation at `a = [1,2]`, `b = [3,4]`. -/
theorem xor_all_comm_pair_witness :
    ([1, 2] : List Nat).length = ([3, 4] : List Nat).length ∧
      xor_all [[1, 2], [3, 4]] = xor_all [[3, 4], [1, 2]] :=
  ⟨by decide, xor_all_comm_pair [1, 2] [3, 4] (by decide)⟩

/-- C10: `int_to_bytes 0` is the empty byte string, so for nonce 0 the
commitment hash computed by `generate` is the digest of the secret
alone, and `verify` at nonce 0 compares against exactly that digest. -/
theorem nonce_zero_empty_encoding :
    int_to_bytes 0 = ([] : List Nat) ∧
      ∀ (H : List Nat → List Nat) (u : Nat → List Nat) (n : Nat)
        (s : List Nat),
        (generate H u n 0 (some s)).2 = H s ∧
          ∀ h, verify H s 0 h = (h == H s) := by
  have h0 : int_to_bytes 0 = ([] : List Nat) := by
    simp [int_to_bytes]
  refine ⟨h0, fun H u n s => ⟨?_, fun h => ?_⟩⟩
  · simp [generate, h0]
  · simp [verify, h0]

/-- C2 counterexample: the distinct pairs `(b'\x01', 0)` and `(b'', 1)`
produce the same hashed preimage `b'\x01'`, and (for any digest, shown
here at a concrete one) `verify` accepts the same hash for both. -/
theorem encode_collision_counterexample :
    (([1], 0) : List Nat × Nat) ≠ ([], 1) ∧
      [1] ++ int_to_bytes 0 = ([] : List Nat) ++ int_to_bytes 1 ∧
      verify (fun l => l) [1] 0 [1] = true ∧
      verify (fun l => l) [] 1 [1] = true := by
  refine ⟨by decide, ?_, ?_, ?_⟩ <;> simp [int_to_bytes, verify]

/-- C2 amended: the preimage map is injective on pairs whose secrets
have equal length — for `s1.length = s2.length` and
`(s1, n1) ≠ (s2, n2)`, the preimages `s1 ++ int_to_bytes n1` and
`s2 ++ int_to_bytes n2` differ.  Without the equal-length restriction
injectivity fails (see the counterexample), because the nonce encoding
is variable-width. -/
theorem hash_preimage_inj_of_length_eq (s1 s2 : List Nat) (n1 n2 : Nat)
    (hlen : s1.length = s2.length) (hne : (s1, n1) ≠ (s2, n2)) :
    s1 ++ int_to_bytes n1 ≠ s2 ++ int_to_bytes n2 := by
  intro h
  obtain ⟨hs, he⟩ := List.append_inj h hlen
  have hd : Nat.digits 256 n1 = Nat.digits 256 n2 := by
    have hr := congrArg List.reverse he
    simpa [int_to_bytes] using hr
  exact hne (by rw [hs, Nat.digits.injective 256 hd])

/-- C2 witness: instantiation of the amended injectivity at the
equal-length pairs `([1,2], 0)` and `([3,4], 1)`. -/
theorem hash_preimage_inj_witness :
    (([1, 2] : List Nat).length = ([3, 4] : List Nat).length ∧
        (([1, 2], 0) : List Nat × Nat) ≠ ([3, 4], 1)) ∧
      [1, 2] ++ int_to_bytes 0 ≠ [3, 4] ++ int_to_bytes 1 :=
  ⟨⟨rfl, by decide⟩,
    hash_preimage_inj_of_length_eq [1, 2] [3, 4] 0 1 rfl (by decide)⟩

/-- C6 counterexample: `generate` with secret length 0 does NOT fail —
it returns the pair `(b'', H(int_to_bytes(nonce)))`, shown here at a
concrete digest and entropy source (`dev_urandom_entropy(0) = b''`). -/
theorem generate_zero_length_counterexample :
    generate (fun l => 0 :: l) (fun k => List.replicate k 7) 0 5 none =
      ([], [0, 5]) := by
  simp [generate, int_to_bytes]

/-- C6 amended: `generate` performs no validation of its length
parameter: with secret length 0 (where the entropy source yields the
empty string) it returns the empty secret paired with the digest of the
nonce encoding alone, instead of failing with `InvalidParameter`. -/
theorem generate_zero_length (H : List Nat → List Nat)
    (u : Nat → List Nat) (nonce : Nat) (hu : u 0 = []) :
    generate H u 0 nonce none = ([], H (int_to_bytes nonce)) := by
  simp [generate, hu]

/-- C6 witness: instantiation at a concrete digest, entropy source and
nonce 9. -/
theorem generate_zero_length_witness :
    (fun k => List.replicate k (7 : Nat)) 0 = [] ∧
      generate (fun l => (0 : Nat) :: l) (fun k => List.replicate k 7)
        0 9 none = ([], (0 : Nat) :: int_to_bytes 9) :=
  ⟨rfl, generate_zero_length _ _ 9 rfl⟩

/-- C1: the encryption round-trip loses the nonce.  `encrypt` appends
the Python builtin `bytes(nonce)` — `nonce` zero bytes — instead of a
big-endian encoding, so `decrypt` (which decodes the tail with
`int.from_bytes`) recovers nonce 0: at secret `b'\x07'` and nonce 1 the
round-trip yields `(b'\x07', 0)`, not `(b'\x07', 1)` as the claim (and
the source's own docstrings) state. -/
theorem encrypt_decrypt_nonce_lost :
    decrypt 1 (encrypt [7] 1 ⟨3⟩ (PrivateKey.public_key ⟨4⟩)) ⟨4⟩
        (PrivateKey.public_key ⟨3⟩) = some ([7], 0) ∧
      (([7], 0) : List Nat × Nat) ≠ ([7], 1) := by decide

/-- C8 counterexample: with expected secret length 2 but an
authenticated plaintext of length 1 (`b'\x05'`, nonce 0), `decrypt`
does NOT fail — it returns `(b'\x05', 0)`. -/
theorem decrypt_no_length_check_counterexample :
    decrypt 2 (encrypt [5] 0 ⟨3⟩ (PrivateKey.public_key ⟨4⟩)) ⟨4⟩
      (PrivateKey.public_key ⟨3⟩) = some ([5], 0) := by decide

/-- C8 amended: `decrypt` performs no length-consistency check: on any
ciphertext that authenticates under the complementary key pair, whatever
the plaintext length and whatever `n`, it returns
`(plaintext[:n], int.from_bytes(plaintext[n:]))` and never fails with
`MalformedPayload`. -/
theorem decrypt_returns_split (n : Nat) (d : List Nat)
    (a b : PrivateKey) :
    decrypt n ⟨a.public_key, b.public_key, d⟩ b a.public_key =
      some (d.take n, bytes_to_int (d.drop n)) := by
  simp [decrypt, Box.decrypt]

end PreCommitHashing
